import Mathlib

/-!
Verification of the duplicate-link tracking and role-routing core of the
contentor_modular2 forum notification bot.

The JavaScript source is embedded shallowly:

* `LinkRecord` / the channel-indexed store mirror `urlStore.js` (`UrlStorage`:
  a `Map` from channel id to an array of records, serialized whole to disk on
  every save; and the flat-array `UrlStore` variant whose `deleteUrl` the
  tracker invokes).
* `processUrl` / `handleUrlMessage` mirror the per-URL classification loop of
  `UrlTracker.handleUrlMessage` in `urlTracker.js`.
* `checkAndStoreUrls`, `checkRateLimit`, `findHighestRole`, the router branch
  of the `messageCreate` handler, and the thread-name-cache cleanup sweep
  mirror `notificator.js` / `notificator3.js`.

External effects (Discord fetches, timers) are modelled as explicit boolean
oracles or oracle functions; JavaScript `Map`s are modelled as association
lists that preserve insertion order; timestamps are integers (milliseconds);
the fractional age computation `(now - timestamp) / 60000` is modelled over ℚ.
-/

namespace Contentor

/-- A stored link record. Field set is the union of the shapes the source
constructs (`urlTracker.js` lines 164–175 and 200–209, `UrlStore.addUrl`);
fields absent on a given JS object are modelled as `none`. In particular the
records built by `handleUrlMessage` carry `threadId` but no `channelId`, while
the same-thread comparison reads `existingUrl.channelId`. -/
structure LinkRecord where
  url : String
  timestamp : Int
  author : String
  authorId : String
  threadName : String
  threadId : String
  forumChannelId : Option String
  messageId : String
  messageUrl : Option String
  guildId : String
  channelId : Option String
deriving DecidableEq

/-- The fields of a Discord message event that the embedded code reads. -/
structure Msg where
  authorTag : String
  authorId : String
  channelId : String
  channelName : String
  parentId : Option String
  messageId : String
  guildId : String
  createdTimestamp : Int
deriving DecidableEq

/-- Association-list lookup, mirroring `Map.prototype.get`. -/
def getA {α : Type} : List (String × α) → String → Option α
  | [], _ => none
  | p :: rest, k => if p.1 = k then some p.2 else getA rest k

/-- Association-list update, mirroring `Map.prototype.set`: replaces the value
at an existing key in place (keeping insertion order), else appends. -/
def setA {α : Type} : List (String × α) → String → α → List (String × α)
  | [], k, v => [(k, v)]
  | p :: rest, k, v => if p.1 = k then (k, v) :: rest else p :: setA rest k v

theorem getA_setA {α : Type} (m : List (String × α)) (k : String) (v : α) :
    getA (setA m k v) k = some v := by
  induction m with
  | nil => simp [getA, setA]
  | cons p rest ih =>
    by_cases h : p.1 = k
    · simp [getA, setA, h]
    · simp [getA, setA, h, ih]

/-- Descending-timestamp order used by `saveUrls`'s
`sort((a, b) => b.timestamp - a.timestamp)`. -/
def tsGE (a b : LinkRecord) : Prop := b.timestamp ≤ a.timestamp

instance : DecidableRel tsGE := fun a b =>
  inferInstanceAs (Decidable (b.timestamp ≤ a.timestamp))

instance : IsTotal LinkRecord tsGE :=
  ⟨fun a b => (le_total b.timestamp a.timestamp).imp (fun h => h) (fun h => h)⟩

instance : IsTrans LinkRecord tsGE :=
  ⟨fun _ _ _ hab hbc => le_trans hbc hab⟩

/-- Stable sort by timestamp, newest first: the JS engine's stable
`Array.prototype.sort` with comparator `(a, b) => b.timestamp - a.timestamp`. -/
def sortTsDesc (l : List LinkRecord) : List LinkRecord := List.insertionSort tsGE l

theorem sortTsDesc_perm (l : List LinkRecord) : List.Perm (sortTsDesc l) l :=
  List.perm_insertionSort tsGE l

theorem sortTsDesc_sorted (l : List LinkRecord) : List.Sorted tsGE (sortTsDesc l) :=
  List.sorted_insertionSort tsGE l

/-- In-memory state of the `UrlStorage` class of `urlStore.js`: the
initialization flag, the channel-indexed `Map` of record arrays, and the
durable file, which holds a serialization of the entire index. -/
structure UrlStorageState where
  initialized : Bool
  urls : List (String × List LinkRecord)
  file : List (String × List LinkRecord)
deriving DecidableEq

/-- The merge loop of `UrlStorage.saveUrls` (`urlStore.js` lines 41–45):
each new record is appended unless some record already in the accumulated
list has the same `url` value. -/
def mergeNewUrls (existingUrls newUrls : List LinkRecord) : List LinkRecord :=
  newUrls.foldl
    (fun updated newUrl =>
      if updated.any (fun e => decide (e.url = newUrl.url)) then updated
      else updated ++ [newUrl])
    existingUrls

/-- `UrlStorage.saveUrls(channelId, newUrls)` (`urlStore.js` lines 31–59):
bail out with no change when uninitialized; otherwise merge the batch into the
channel's list, sort it newest-first, store it under the channel key and write
the whole index to the durable file, returning the merged list's length. -/
def saveUrls (s : UrlStorageState) (channelId : String) (newUrls : List LinkRecord) :
    UrlStorageState × Option Nat :=
  if s.initialized = false then (s, none)
  else
    let existingUrls := (getA s.urls channelId).getD []
    let sortedUrls := sortTsDesc (mergeNewUrls existingUrls newUrls)
    let urls2 := setA s.urls channelId sortedUrls
    (⟨s.initialized, urls2, urls2⟩, some sortedUrls.length)

/-- Channel iteration of `UrlStorage.findUrlHistory`: for each channel in map
insertion order, `urls.find(entry => entry.url === url)`; first hit wins. -/
def findInChannels : List (String × List LinkRecord) → String → Option LinkRecord
  | [], _ => none
  | p :: rest, url =>
    match p.2.find? (fun e => decide (e.url = url)) with
    | some r => some r
    | none => findInChannels rest url

/-- `UrlStorage.findUrlHistory(url)` (`urlStore.js` lines 62–78): `null` when
uninitialized, else the first record with that `url` in channel-map order. -/
def findUrlHistory (s : UrlStorageState) (url : String) : Option LinkRecord :=
  if s.initialized = false then none
  else findInChannels s.urls url

/-- `UrlStorage.getUrls(channelId)` (`urlStore.js` lines 105–111): the empty
list when uninitialized, else the channel's list (or `[]` when absent). -/
def getUrls (s : UrlStorageState) (channelId : String) : List LinkRecord :=
  if s.initialized = false then []
  else (getA s.urls channelId).getD []

/-- `UrlStore.deleteUrl(url)` of the flat-array store class
(`urlStore.js` lines 247–253): `data.urls.filter(entry => entry.url !== url)`,
i.e. every record whose `url` equals the argument is removed. -/
def deleteUrlFlat (urls : List LinkRecord) (url : String) : List LinkRecord :=
  urls.filter (fun e => decide (e.url ≠ url))

/-- The tracker's purge step `this.urlStore.deleteUrl(url)` lifted to the
channel-indexed store it is wired with in `notificator.js` (the wired
`UrlStorage` class declares no `deleteUrl`; the repository's `deleteUrl`,
`UrlStore.deleteUrl`, filters out every record with the given `url` value and
persists, so the same filter is applied to each channel's list here and the
whole index is written through). -/
def deleteUrlStorage (s : UrlStorageState) (url : String) : UrlStorageState :=
  let urls2 := s.urls.map (fun p => (p.1, deleteUrlFlat p.2 url))
  ⟨s.initialized, urls2, urls2⟩

/-- The user-facing outcome decided per URL by `UrlTracker.handleUrlMessage`
(each warning branch sends an embed; accept branches stage a record). -/
inductive Outcome where
  | acceptNew
  | warnDifferentAuthor
  | warnSameAuthorDifferentThread
  | warnSameAuthorSameThreadOriginalExists
  | acceptNewAfterPurge
  | warnSameAuthorSameThreadStale
deriving DecidableEq

/-- `https://discord.com/channels/<guild>/<channel>/<message>` as built at
`urlTracker.js` line 173. -/
def messageUrlOf (m : Msg) : String :=
  "https://discord.com/channels/" ++ m.guildId ++ "/" ++ m.channelId ++ "/" ++ m.messageId

/-- The record staged by the purge branch (`urlTracker.js` lines 164–175).
The JS object has no `channelId` property, hence `channelId := none`. -/
def stagedRecordAfterPurge (m : Msg) (url : String) : LinkRecord :=
  { url := url, timestamp := m.createdTimestamp, author := m.authorTag,
    authorId := m.authorId, threadName := m.channelName, threadId := m.channelId,
    forumChannelId := m.parentId, messageId := m.messageId,
    messageUrl := some (messageUrlOf m), guildId := m.guildId, channelId := none }

/-- The record staged for a never-seen URL (`urlTracker.js` lines 200–209);
this shape carries neither `forumChannelId` nor `messageUrl` nor `channelId`. -/
def newUrlRecord (m : Msg) (url : String) : LinkRecord :=
  { url := url, timestamp := m.createdTimestamp, author := m.authorTag,
    authorId := m.authorId, threadName := m.channelName, threadId := m.channelId,
    forumChannelId := none, messageId := m.messageId,
    messageUrl := none, guildId := m.guildId, channelId := none }

/-- `ageInMinutes = (currentTime - originalTime) / (60 * 1000)`
(`urlTracker.js` line 158), over exact rationals. -/
def ageInMinutes (currentTime originalTime : Int) : ℚ :=
  ((currentTime - originalTime : Int) : ℚ) / (60 * 1000)

/-- One iteration of the per-URL loop of `UrlTracker.handleUrlMessage`
(`urlTracker.js` lines 85–211). `fetchOk` is the oracle for
`message.channel.messages.fetch(existingUrl.messageId)` succeeding; `threshold`
is the configured `THRESHOLD_DUPE_AGE` (minutes, default 60 in `config.js`).
Returns the outcome, the store after any purge, and the updated staged list
(`urlsToStore`). -/
def processUrl (s : UrlStorageState) (staged : List LinkRecord) (m : Msg)
    (fetchOk : String → Bool) (now : Int) (threshold : ℚ) (url : String) :
    Outcome × UrlStorageState × List LinkRecord :=
  match findUrlHistory s url with
  | none => (.acceptNew, s, staged ++ [newUrlRecord m url])
  | some existingUrl =>
    if existingUrl.author ≠ m.authorTag then
      (.warnDifferentAuthor, s, staged)
    else if existingUrl.channelId ≠ some m.channelId then
      (.warnSameAuthorDifferentThread, s, staged)
    else if fetchOk existingUrl.messageId then
      (.warnSameAuthorSameThreadOriginalExists, s, staged)
    else if ageInMinutes now existingUrl.timestamp < threshold then
      (.acceptNewAfterPurge, deleteUrlStorage s url, staged ++ [stagedRecordAfterPurge m url])
    else
      (.warnSameAuthorSameThreadStale, s, staged)

/-- `UrlTracker.handleUrlMessage(message, urls)` (`urlTracker.js` lines 52–227):
the Scenario-0 blocklist short-circuit (outcome of the `BOTANIX_TWITTER`
substring test, modelled as the boolean `blocklistHit`) returns with no store
change; otherwise each URL is classified in order and, when any records were
staged, they are saved under the message's channel. Returns the updated store
and the staged records. -/
def handleUrlMessage (s : UrlStorageState) (m : Msg) (fetchOk : String → Bool)
    (now : Int) (threshold : ℚ) (blocklistHit : Bool) (urls : List String) :
    UrlStorageState × List LinkRecord :=
  if blocklistHit then (s, [])
  else
    let res := urls.foldl
      (fun acc url =>
        let r := processUrl acc.1 acc.2 m fetchOk now threshold url
        (r.2.1, r.2.2))
      (s, [])
    if res.2.length > 0 then ((saveUrls res.1 m.channelId res.2).1, res.2) else res

/-- The delayed-commit callback `checkAndStoreUrls` registered with
`setTimeout(checkAndStoreUrls, URL_CHECK_TIMEOUT)` (`notificator.js` lines
449–467): on firing, re-fetch the source message (`checkMessageExists`, its
result modelled as the oracle `messageExists`); if it still exists, run the
tracker over the message's URLs; otherwise log only — the store is untouched. -/
def checkAndStoreUrls (messageExists : Bool) (s : UrlStorageState) (m : Msg)
    (fetchOk : String → Bool) (now : Int) (threshold : ℚ) (blocklistHit : Bool)
    (urls : List String) : UrlStorageState :=
  if messageExists then (handleUrlMessage s m fetchOk now threshold blocklistHit urls).1
  else s

/-- `RATE_LIMIT_COOLDOWN = 1000` (`notificator3.js` line 21,
`notificator1.js` line 18). -/
def RATE_LIMIT_COOLDOWN : Int := 1000

/-- `checkRateLimit(userId)` (`notificator3.js` lines 34–45, identically
`notificator1.js` lines 46–57) over the `rateLimitMap`: rejected (`true`)
when a truthy stored timestamp exists and `now - last < RATE_LIMIT_COOLDOWN`
(a stored `0` is falsy in JS and behaves like a missing entry); otherwise the
entry is overwritten with `now` and the call is accepted (`false`). -/
def checkRateLimit (m : List (String × Int)) (userId : String) (now : Int) :
    Bool × List (String × Int) :=
  match getA m userId with
  | some last =>
    if last ≠ 0 ∧ now - last < RATE_LIMIT_COOLDOWN then (true, m)
    else (false, setA m userId now)
  | none => (false, setA m userId now)

/-- The routing configuration: `ROLE_i_ID`/`THREAD_i_ID` for tiers 0–5 and the
optional `IGNORED_ROLES` list (`notificator.js` lines 107–123). -/
structure RouterEnv where
  roleId : Fin 6 → String
  threadId : Fin 6 → String
  ignored : List String

/-- `findHighestRole(memberRoles)` (`notificator.js` lines 33–41): scan tiers
from 5 down to 0 and return the first tier whose role the member holds;
the sentinel `-1` is modelled as `none`. -/
def findHighestRole (env : RouterEnv) (memberRoles : List String) : Option (Fin 6) :=
  if env.roleId 5 ∈ memberRoles then some 5
  else if env.roleId 4 ∈ memberRoles then some 4
  else if env.roleId 3 ∈ memberRoles then some 3
  else if env.roleId 2 ∈ memberRoles then some 2
  else if env.roleId 1 ∈ memberRoles then some 1
  else if env.roleId 0 ∈ memberRoles then some 0
  else none

/-- The router's decision for a message. -/
inductive RouteDecision where
  | allowed
  | misrouted (correctThreadId : String)
deriving DecidableEq

/-- The enforcement branch of the `messageCreate` handler (`notificator.js`
lines 437–447): a member with an ignored role passes; a member holding none of
the six roles passes; otherwise the message must sit in the thread mapped to
the member's highest tier, else it is redirected there (`handleWrongThread`). -/
def route (env : RouterEnv) (memberRoles : List String) (channelId : String) :
    RouteDecision :=
  if ∃ r ∈ memberRoles, r ∈ env.ignored then .allowed
  else
    match findHighestRole env memberRoles with
    | none => .allowed
    | some i => if channelId ≠ env.threadId i then .misrouted (env.threadId i) else .allowed

/-- `THREAD_CACHE_TTL = 3600000` (`notificator.js` line 26). -/
def THREAD_CACHE_TTL : Int := 3600000

/-- A `threadNameCache` entry `{name, timestamp, pendingOps}`
(`notificator.js` line 31). `pendingOps` is an integer as in JS. -/
structure ThreadNameCacheEntry where
  name : String
  timestamp : Int
  pendingOps : Int
deriving DecidableEq

/-- The cache-cleanup sweep body (`notificator.js` lines 376–384): an entry is
deleted exactly when `now - data.timestamp > THREAD_CACHE_TTL` and
`data.pendingOps === 0`. -/
def cacheCleanup (cache : List (String × ThreadNameCacheEntry)) (now : Int) :
    List (String × ThreadNameCacheEntry) :=
  cache.filter
    (fun p => !(decide (THREAD_CACHE_TTL < now - p.2.timestamp) && decide (p.2.pendingOps = 0)))

/-- State of one thread's cache slot for the acquire/release discipline of
`getThreadName` (`notificator.js` lines 125–165): `entry` is the cached
`pendingOps` value (`none` when the slot is absent), `outstanding` counts the
`done` callbacks handed out by successful acquisitions and not yet invoked
(the failure path returns a no-op `done` and caches nothing). -/
structure ThreadCacheState where
  entry : Option Int
  outstanding : Nat
deriving DecidableEq

/-- Events over one cache slot: `acquire ok` is a `getThreadName` call whose
directory fetch outcome is `ok` on a miss; `release` invokes a previously
returned decrementing `done`; `sweep elapsed` runs the cleanup interval, with
`elapsed` the truth of `now - timestamp > THREAD_CACHE_TTL` for this entry. -/
inductive CacheEvent where
  | acquire (fetchOk : Bool)
  | release
  | sweep (ttlElapsed : Bool)
deriving DecidableEq

/-- Transition function for one cache slot, following `getThreadName` and the
cleanup sweep: a hit increments `pendingOps`; a successful miss stores an
entry with `pendingOps = 1`; a failed miss changes nothing; `done` decrements
the entry if one is present; the sweep deletes the entry exactly when the TTL
has elapsed and `pendingOps` equals `0`. -/
def cacheStep : ThreadCacheState → CacheEvent → ThreadCacheState
  | s, .acquire ok =>
    match s.entry with
    | some k => ⟨some (k + 1), s.outstanding + 1⟩
    | none => if ok then ⟨some 1, s.outstanding + 1⟩ else s
  | s, .release =>
    ⟨(match s.entry with | some k => some (k - 1) | none => none), s.outstanding - 1⟩
  | s, .sweep elapsed =>
    if elapsed && decide (s.entry = some 0) then ⟨none, s.outstanding⟩ else s

/-- A trace is legal from `s` when every `release` is backed by an outstanding
`done` callback, i.e. callers invoke `release` at most once per successful
`acquire` (the spec demands exactly once; at-most-once is what boundedness
needs, and the final releases may still be pending at the cut). -/
def legalFrom : ThreadCacheState → List CacheEvent → Bool
  | _, [] => true
  | s, e :: es =>
    (match e with | .release => decide (0 < s.outstanding) | _ => true)
      && legalFrom (cacheStep s e) es

/-- Run a trace of cache-slot events. -/
def runCache (s : ThreadCacheState) (tr : List CacheEvent) : ThreadCacheState :=
  tr.foldl cacheStep s

/-- The empty cache slot (process start: nothing cached, no callbacks out). -/
def initCacheState : ThreadCacheState := ⟨none, 0⟩

/-! ### Helper lemmas -/

theorem mergeNewUrls_cons (acc : List LinkRecord) (r : LinkRecord) (rest : List LinkRecord) :
    mergeNewUrls acc (r :: rest)
      = mergeNewUrls
          (if acc.any (fun e => decide (e.url = r.url)) then acc else acc ++ [r]) rest := rfl

theorem mergeNewUrls_nodup (newUrls : List LinkRecord) :
    ∀ acc : List LinkRecord, (acc.map LinkRecord.url).Nodup →
      ((mergeNewUrls acc newUrls).map LinkRecord.url).Nodup := by
  induction newUrls with
  | nil => intro acc h; simpa [mergeNewUrls] using h
  | cons r rest ih =>
    intro acc h
    rw [mergeNewUrls_cons]
    by_cases hc : acc.any (fun e => decide (e.url = r.url)) = true
    · rw [if_pos hc]; exact ih acc h
    · rw [if_neg hc]
      apply ih
      have hni : r.url ∉ acc.map LinkRecord.url := by
        intro hmm
        rcases List.mem_map.mp hmm with ⟨e, he, heq⟩
        exact hc (List.any_eq_true.mpr ⟨e, he, by simp [heq]⟩)
      rw [List.map_append, List.nodup_append]
      refine ⟨h, List.nodup_singleton _, ?_⟩
      intro a ha hb
      simp only [List.map_cons, List.map_nil, List.mem_singleton] at hb
      exact hni (hb ▸ ha)

theorem saveUrls_getUrls (s : UrlStorageState) (c : String) (batch : List LinkRecord)
    (hinit : s.initialized = true) :
    getUrls (saveUrls s c batch).1 c
      = sortTsDesc (mergeNewUrls ((getA s.urls c).getD []) batch) := by
  simp [saveUrls, getUrls, hinit, getA_setA]

theorem findInChannels_spec (m : List (String × List LinkRecord)) (u : String)
    (r : LinkRecord) (h : findInChannels m u = some r) :
    r.url = u ∧ ∃ p ∈ m, r ∈ p.2 := by
  induction m with
  | nil => simp [findInChannels] at h
  | cons p rest ih =>
    rw [findInChannels] at h
    cases hf : p.2.find? (fun e => decide (e.url = u)) with
    | some x =>
      rw [hf] at h
      have hx : x = r := by simpa using h
      subst hx
      have hpx := List.find?_some hf
      have hmem := List.mem_of_find?_eq_some hf
      exact ⟨by simpa using hpx, p, List.mem_cons_self p rest, hmem⟩
    | none =>
      rw [hf] at h
      obtain ⟨hu, q, hq, hr⟩ := ih h
      exact ⟨hu, q, List.mem_cons_of_mem p hq, hr⟩

theorem findUrlHistory_spec (s : UrlStorageState) (u : String) (r : LinkRecord)
    (h : findUrlHistory s u = some r) : r.url = u ∧ ∃ p ∈ s.urls, r ∈ p.2 := by
  unfold findUrlHistory at h
  by_cases hi : s.initialized = false
  · rw [if_pos hi] at h; exact absurd h (by simp)
  · rw [if_neg hi] at h; exact findInChannels_spec _ _ _ h

theorem deleteUrlStorage_not_mem (s : UrlStorageState) (u : String) (r : LinkRecord)
    (hu : r.url = u) : ∀ p ∈ (deleteUrlStorage s u).urls, r ∉ p.2 := by
  intro p hp hrm
  simp only [deleteUrlStorage, List.mem_map] at hp
  obtain ⟨q, _, hpq⟩ := hp
  rw [← hpq] at hrm
  have := List.of_mem_filter hrm
  simp [hu] at this

/-! ### Sample data used by concrete witnesses and counterexamples -/

/-- A concrete stored record (URL `https://a.example/x`, timestamp 1). -/
def rA : LinkRecord :=
  { url := "https://a.example/x", timestamp := 1, author := "alice#1", authorId := "1",
    threadName := "general", threadId := "T1", forumChannelId := none, messageId := "m1",
    messageUrl := none, guildId := "g", channelId := none }

/-- A second record with the same URL as `rA` but a later timestamp. -/
def rB : LinkRecord := { rA with timestamp := 2, messageId := "m2" }

/-- A record with a different URL. -/
def rC : LinkRecord := { rA with url := "https://c.example/y", messageId := "m3" }

/-- A new record with a different URL and the latest timestamp. -/
def rNew : LinkRecord := { rA with url := "https://n.example/z", timestamp := 5, messageId := "m5" }

/-- An initialized one-channel store holding `rA`. -/
def storW : UrlStorageState := ⟨true, [("c", [rA])], [("c", [rA])]⟩

/-- An uninitialized store with pending content (initialization failed). -/
def storU : UrlStorageState := ⟨false, [("c", [rA])], [("c", [rA])]⟩

/-! ### Claims about the persistent link store -/

/-- Claim C4: merging a batch into a channel's list skips records whose URL is
already present there and keeps at most one record per URL value, also when the
same URL occurs twice inside one batch — provided the channel's list satisfies
the data-model invariant (each URL at most once) beforehand. -/
theorem saveUrls_url_unique (s : UrlStorageState) (c : String) (batch : List LinkRecord)
    (hinit : s.initialized = true)
    (hnd : (((getA s.urls c).getD []).map LinkRecord.url).Nodup) :
    ((getUrls (saveUrls s c batch).1 c).map LinkRecord.url).Nodup := by
  rw [saveUrls_getUrls s c batch hinit]
  have hperm :=
    (sortTsDesc_perm (mergeNewUrls ((getA s.urls c).getD []) batch)).map LinkRecord.url
  exact hperm.nodup_iff.mpr (mergeNewUrls_nodup batch _ hnd)

theorem saveUrls_url_unique_witness :
    storW.initialized = true
    ∧ (((getA storW.urls "c").getD []).map LinkRecord.url).Nodup
    ∧ ((getUrls (saveUrls storW "c" [rB, rC, rC]).1 "c").map LinkRecord.url).Nodup :=
  ⟨rfl, by decide, saveUrls_url_unique storW "c" [rB, rC, rC] rfl (by decide)⟩

/-- Claim C5 counterexample: `saveUrls` sorts the merged list newest-first, so
after saving `rNew` (timestamp 5) into a channel already holding `rA`
(timestamp 1), the pre-existing record no longer precedes the new one —
insertion order is not preserved. -/
theorem saveUrls_order_cex :
    getUrls (saveUrls storW "c" [rNew]).1 "c" = [rNew, rA] ∧ rNew ≠ rA := by decide

/-- Claim C5 (amended): after each `saveUrls` the channel's list is the merged
record set re-sorted by timestamp, newest first (a permutation of the merge of
the old list with the deduplicated batch); insertion order is not preserved. -/
theorem saveUrls_sorted_desc (s : UrlStorageState) (c : String) (batch : List LinkRecord)
    (hinit : s.initialized = true) :
    List.Sorted tsGE (getUrls (saveUrls s c batch).1 c)
    ∧ List.Perm (getUrls (saveUrls s c batch).1 c)
        (mergeNewUrls ((getA s.urls c).getD []) batch) := by
  rw [saveUrls_getUrls s c batch hinit]
  exact ⟨sortTsDesc_sorted _, sortTsDesc_perm _⟩

theorem saveUrls_sorted_desc_witness :
    List.Sorted tsGE (getUrls (saveUrls storW "c" [rNew]).1 "c")
    ∧ List.Perm (getUrls (saveUrls storW "c" [rNew]).1 "c")
        (mergeNewUrls ((getA storW.urls "c").getD []) [rNew]) :=
  saveUrls_sorted_desc storW "c" [rNew] rfl

/-- Claim C6 counterexample: with two records bearing the same URL value,
`deleteUrl` removes both — the second matching record does not remain. -/
theorem deleteUrl_first_only_cex :
    deleteUrlFlat [rA, rB] "https://a.example/x" = []
    ∧ rB ∈ [rA, rB] ∧ rB.url = "https://a.example/x" ∧ rA ≠ rB := by decide

/-- Claim C6 (amended): `deleteUrl` removes every record whose URL equals the
given value; records with different URL values all remain, in their order. -/
theorem deleteUrl_removes_all (l : List LinkRecord) (u : String) :
    (∀ r ∈ deleteUrlFlat l u, r.url ≠ u)
    ∧ (∀ r ∈ l, r.url ≠ u → r ∈ deleteUrlFlat l u)
    ∧ List.Sublist (deleteUrlFlat l u) l := by
  refine ⟨?_, ?_, List.filter_sublist l⟩
  · intro r hr
    have := List.of_mem_filter hr
    simpa using this
  · intro r hrl hne
    exact List.mem_filter.mpr ⟨hrl, by simpa using hne⟩

theorem deleteUrl_removes_all_witness :
    rC ∈ deleteUrlFlat [rA, rC] "https://a.example/x" :=
  (deleteUrl_removes_all [rA, rC] "https://a.example/x").2.1 rC (by decide) (by decide)

/-- Claim C10: while the store is uninitialized, `saveUrls` changes neither the
in-memory index nor the durable file and returns no count, `findUrlHistory`
returns `none`, and `getUrls` returns the empty list. -/
theorem uninitialized_storage_degraded (s : UrlStorageState) (c u : String)
    (batch : List LinkRecord) (h : s.initialized = false) :
    saveUrls s c batch = (s, none) ∧ findUrlHistory s u = none ∧ getUrls s c = [] := by
  refine ⟨?_, ?_, ?_⟩ <;> simp [saveUrls, findUrlHistory, getUrls, h]

theorem uninitialized_storage_degraded_witness :
    saveUrls storU "c" [rNew] = (storU, none)
    ∧ findUrlHistory storU "https://a.example/x" = none
    ∧ getUrls storU "c" = [] :=
  uninitialized_storage_degraded storU "c" "https://a.example/x" [rNew] rfl

/-! ### Claims about the thread-name cache sweep -/

/-- A cache entry with a consumer still in flight. -/
def entryBusy : ThreadNameCacheEntry := ⟨"general", 0, 1⟩

/-- An expired cache entry with no pending operations. -/
def entryIdle : ThreadNameCacheEntry := ⟨"old-thread", 0, 0⟩

/-- Claim C8: the cleanup sweep evicts a present entry exactly when its TTL has
elapsed (`now - cachedAt > TTL`) and its `pendingOps` is zero; an entry with
positive `pendingOps` survives every sweep, however far past its TTL. -/
theorem cacheCleanup_evicts_iff (cache : List (String × ThreadNameCacheEntry))
    (now : Int) (tid : String) (d : ThreadNameCacheEntry) (h : (tid, d) ∈ cache) :
    ((tid, d) ∉ cacheCleanup cache now
      ↔ THREAD_CACHE_TTL < now - d.timestamp ∧ d.pendingOps = 0)
    ∧ (0 < d.pendingOps → (tid, d) ∈ cacheCleanup cache now) := by
  have hmem : (tid, d) ∈ cacheCleanup cache now
      ↔ ¬(THREAD_CACHE_TTL < now - d.timestamp ∧ d.pendingOps = 0) := by
    simp [cacheCleanup, List.mem_filter, h]
    omega
  constructor
  · rw [hmem]; tauto
  · intro hpos
    rw [hmem]
    rintro ⟨-, h0⟩
    omega

theorem cacheCleanup_evicts_iff_witness :
    ("t2", entryBusy) ∈ cacheCleanup [("t1", entryIdle), ("t2", entryBusy)] 3600001 :=
  (cacheCleanup_evicts_iff [("t1", entryIdle), ("t2", entryBusy)] 3600001 "t2" entryBusy
    (by decide)).2 (by decide)

/-! ### Claims about the deduplication engine and delayed commit -/

/-- The record used by the C1/C2 witnesses: a stored original whose
`channelId` matches the witness message's channel. -/
def rOrig : LinkRecord :=
  { url := "https://a.example/x", timestamp := 0, author := "alice#1", authorId := "1",
    threadName := "general", threadId := "T1", forumChannelId := none, messageId := "m0",
    messageUrl := none, guildId := "g", channelId := some "T1" }

/-- An initialized store holding only `rOrig` under channel `T1`. -/
def storT : UrlStorageState := ⟨true, [("T1", [rOrig])], [("T1", [rOrig])]⟩

/-- The witness message: same author tag and same channel as `rOrig`,
posted 59 minutes after it. -/
def msgT : Msg :=
  { authorTag := "alice#1", authorId := "1", channelId := "T1", channelName := "general",
    parentId := some "F", messageId := "m9", guildId := "g", createdTimestamp := 3540000 }

/-- Claim C1: for a stored record with the same author and channel as the
current message whose original message no longer exists, an age in minutes
strictly below the threshold purges the stale record (it is gone from every
channel of the store) and stages the occurrence as a new record with outcome
`Accept-New-AfterPurge`; at or above the threshold, the stale-duplicate
warning is emitted, no write occurs, and the old record remains stored. -/
theorem dedup_purge_or_stale (s : UrlStorageState) (staged : List LinkRecord) (m : Msg)
    (fetchOk : String → Bool) (now : Int) (threshold : ℚ) (url : String)
    (existingUrl : LinkRecord)
    (hfind : findUrlHistory s url = some existingUrl)
    (hauthor : existingUrl.author = m.authorTag)
    (hchan : existingUrl.channelId = some m.channelId)
    (hgone : fetchOk existingUrl.messageId = false) :
    (ageInMinutes now existingUrl.timestamp < threshold →
      processUrl s staged m fetchOk now threshold url
        = (.acceptNewAfterPurge, deleteUrlStorage s url,
            staged ++ [stagedRecordAfterPurge m url])
      ∧ ∀ p ∈ (deleteUrlStorage s url).urls, existingUrl ∉ p.2)
    ∧ (threshold ≤ ageInMinutes now existingUrl.timestamp →
      processUrl s staged m fetchOk now threshold url
        = (.warnSameAuthorSameThreadStale, s, staged)
      ∧ ∃ p ∈ s.urls, existingUrl ∈ p.2) := by
  obtain ⟨hu, hmem⟩ := findUrlHistory_spec s url existingUrl hfind
  constructor
  · intro hage
    refine ⟨?_, deleteUrlStorage_not_mem s url existingUrl hu⟩
    simp [processUrl, hfind, hauthor, hchan, hgone, hage]
  · intro hage
    have hnl : ¬ ageInMinutes now existingUrl.timestamp < threshold := not_lt.mpr hage
    exact ⟨by simp [processUrl, hfind, hauthor, hchan, hgone, hnl], hmem⟩

theorem dedup_purge_or_stale_witness :
    processUrl storT [] msgT (fun _ => false) 3540000 60 "https://a.example/x"
      = (.acceptNewAfterPurge, deleteUrlStorage storT "https://a.example/x",
          [stagedRecordAfterPurge msgT "https://a.example/x"]) :=
  ((dedup_purge_or_stale storT [] msgT (fun _ => false) 3540000 60 "https://a.example/x"
      rOrig (by decide) rfl rfl rfl).1 (by norm_num [ageInMinutes, rOrig])).1

/-- Claim C2: when the delayed-commit callback fires, it first re-checks the
source message: if it still exists, the tracker runs (classification and
persistence); if it has been deleted, the store is returned untouched, so a
URL with no stored record before the delay still has none afterwards. -/
theorem delayedCommit_discard (s : UrlStorageState) (m : Msg) (fetchOk : String → Bool)
    (now : Int) (threshold : ℚ) (bh : Bool) (urls : List String) (u : String) :
    checkAndStoreUrls true s m fetchOk now threshold bh urls
      = (handleUrlMessage s m fetchOk now threshold bh urls).1
    ∧ checkAndStoreUrls false s m fetchOk now threshold bh urls = s
    ∧ (findUrlHistory s u = none →
        findUrlHistory (checkAndStoreUrls false s m fetchOk now threshold bh urls) u
          = none) := by
  refine ⟨by simp [checkAndStoreUrls], by simp [checkAndStoreUrls], fun h => ?_⟩
  simpa [checkAndStoreUrls] using h

theorem delayedCommit_discard_witness :
    findUrlHistory storT "https://new.example/q" = none
    ∧ findUrlHistory
        (checkAndStoreUrls false storT msgT (fun _ => false) 0 60 false
          ["https://new.example/q"]) "https://new.example/q" = none :=
  ⟨by decide,
   (delayedCommit_discard storT msgT (fun _ => false) 0 60 false
      ["https://new.example/q"] "https://new.example/q").2.2 (by decide)⟩

/-! ### Claims about the role-thread router -/

theorem findHighestRole_eq_some (env : RouterEnv) (memberRoles : List String) (k : Fin 6)
    (hk : env.roleId k ∈ memberRoles)
    (hj : ∀ j : Fin 6, k < j → env.roleId j ∉ memberRoles) :
    findHighestRole env memberRoles = some k := by
  have hk6 : k = 0 ∨ k = 1 ∨ k = 2 ∨ k = 3 ∨ k = 4 ∨ k = 5 := by
    rcases k with ⟨v, hv⟩
    interval_cases v <;> simp [Fin.ext_iff]
  rcases hk6 with rfl | rfl | rfl | rfl | rfl | rfl
  · simp [findHighestRole, hj 5 (by decide), hj 4 (by decide), hj 3 (by decide),
      hj 2 (by decide), hj 1 (by decide), hk]
  · simp [findHighestRole, hj 5 (by decide), hj 4 (by decide), hj 3 (by decide),
      hj 2 (by decide), hk]
  · simp [findHighestRole, hj 5 (by decide), hj 4 (by decide), hj 3 (by decide), hk]
  · simp [findHighestRole, hj 5 (by decide), hj 4 (by decide), hk]
  · simp [findHighestRole, hj 5 (by decide), hk]
  · simp [findHighestRole, hk]

theorem findHighestRole_eq_none (env : RouterEnv) (memberRoles : List String)
    (h : ∀ i : Fin 6, env.roleId i ∉ memberRoles) :
    findHighestRole env memberRoles = none := by
  simp [findHighestRole, h 0, h 1, h 2, h 3, h 4, h 5]

/-- Claim C3: the router takes the first held role scanning tiers 5 down to 0;
with tier `k`'s role held, no higher tier's role held and no ignored role, the
channel mapped to tier `k` is allowed and every other channel is misrouted
with correction pointing at tier `k`'s channel; a member holding none of the
six configured roles is always allowed. -/
theorem router_enforcement :
    (∀ (env : RouterEnv) (memberRoles : List String) (k : Fin 6),
      env.roleId k ∈ memberRoles →
      (∀ j : Fin 6, k < j → env.roleId j ∉ memberRoles) →
      (∀ r ∈ memberRoles, r ∉ env.ignored) →
      route env memberRoles (env.threadId k) = .allowed
      ∧ ∀ ch, ch ≠ env.threadId k →
          route env memberRoles ch = .misrouted (env.threadId k))
    ∧ ∀ (env : RouterEnv) (memberRoles : List String) (ch : String),
      (∀ i : Fin 6, env.roleId i ∉ memberRoles) →
      route env memberRoles ch = .allowed := by
  constructor
  · intro env memberRoles k hk hj hign
    have hnex : ¬∃ r ∈ memberRoles, r ∈ env.ignored := by
      rintro ⟨r, hr, hri⟩
      exact hign r hr hri
    have hfr := findHighestRole_eq_some env memberRoles k hk hj
    refine ⟨by simp [route, hnex, hfr], fun ch hch => by simp [route, hnex, hfr, hch]⟩
  · intro env memberRoles ch h
    have hfr := findHighestRole_eq_none env memberRoles h
    by_cases hex : ∃ r ∈ memberRoles, r ∈ env.ignored
    · simp [route, hex]
    · simp [route, hex, hfr]

/-- A concrete routing configuration for the witness: tier 3 owns role `r3`
and thread `t3`; every other tier owns `rX`/`tX`; `ig` is ignored. -/
def envW : RouterEnv :=
  ⟨fun i => if i = 3 then "r3" else "rX", fun i => if i = 3 then "t3" else "tX", ["ig"]⟩

theorem router_enforcement_witness :
    route envW ["r3"] (envW.threadId 3) = .allowed
    ∧ route envW ["r3"] "q" = .misrouted (envW.threadId 3) :=
  ⟨(router_enforcement.1 envW ["r3"] 3 (by decide) (by decide) (by decide)).1,
   (router_enforcement.1 envW ["r3"] 3 (by decide) (by decide) (by decide)).2 "q" (by decide)⟩

/-! ### Claims about the rate limiter -/

/-- Claim C7 counterexample: with a stored timestamp of 1 and a call at
`now = 1 + RATE_LIMIT_COOLDOWN`, the elapsed time equals the cooldown — it
does not exceed it, and a prior accepted timestamp exists, yet the call is
accepted (returns `false` = not limited). -/
theorem checkRateLimit_boundary_cex :
    (checkRateLimit [("u", 1)] "u" (1 + RATE_LIMIT_COOLDOWN)).1 = false
    ∧ getA [("u", 1)] "u" = some 1
    ∧ ¬(RATE_LIMIT_COOLDOWN < (1 + RATE_LIMIT_COOLDOWN) - 1) := by decide

/-- Claim C7 (amended): for actors with a positive stored timestamp,
`checkRateLimit` accepts exactly when no prior accepted timestamp exists or
the elapsed time is at least (not strictly more than) the cooldown; an
acceptance overwrites the actor's entry with `now`, and a rejection leaves
the rate-limit map completely unchanged. -/
theorem checkRateLimit_spec (m : List (String × Int)) (userId : String) (now : Int) :
    (getA m userId = none → checkRateLimit m userId now = (false, setA m userId now))
    ∧ ∀ last, getA m userId = some last → 0 < last →
        (now - last < RATE_LIMIT_COOLDOWN → checkRateLimit m userId now = (true, m))
        ∧ (RATE_LIMIT_COOLDOWN ≤ now - last →
            checkRateLimit m userId now = (false, setA m userId now)) := by
  constructor
  · intro h; simp [checkRateLimit, h]
  · intro last h hpos
    constructor
    · intro hlt
      have hc : last ≠ 0 ∧ now - last < RATE_LIMIT_COOLDOWN := ⟨by omega, hlt⟩
      simp [checkRateLimit, h, hc.1, hc.2]
    · intro hge
      have hc : ¬(last ≠ 0 ∧ now - last < RATE_LIMIT_COOLDOWN) := by
        rintro ⟨-, hlt⟩
        omega
      simp [checkRateLimit, h, hc]

theorem checkRateLimit_spec_witness :
    checkRateLimit [("u", 1)] "u" 500 = (true, [("u", 1)])
    ∧ checkRateLimit [("u", 1)] "u" 1500 = (false, setA [("u", 1)] "u" 1500) :=
  ⟨((checkRateLimit_spec [("u", 1)] "u" 500).2 1 (by decide) (by decide)).1 (by decide),
   ((checkRateLimit_spec [("u", 1)] "u" 1500).2 1 (by decide) (by decide)).2 (by decide)⟩

/-! ### Claim about the pendingOps refcount -/

/-- The refcount invariant tying a slot's `pendingOps` to the number of
outstanding decrementing `done` callbacks. -/
def cacheInv (s : ThreadCacheState) : Prop :=
  (s.entry = none → s.outstanding = 0)
  ∧ ∀ k, s.entry = some k → k = (s.outstanding : Int)

theorem cacheStep_inv (s : ThreadCacheState) (e : CacheEvent)
    (hinv : cacheInv s)
    (hleg : e = .release → 0 < s.outstanding) :
    cacheInv (cacheStep s e) := by
  obtain ⟨hnone, hsome⟩ := hinv
  cases e with
  | acquire ok =>
    cases hs : s.entry with
    | some k =>
      have hk := hsome k hs
      have hstep : cacheStep s (.acquire ok) = ⟨some (k + 1), s.outstanding + 1⟩ := by
        simp [cacheStep, hs]
      rw [hstep]
      refine ⟨by simp, fun j hj => ?_⟩
      have hjk : k + 1 = j := by simpa using hj
      show j = ((s.outstanding + 1 : ℕ) : ℤ)
      omega
    | none =>
      cases ok with
      | false =>
        have hstep : cacheStep s (.acquire false) = s := by simp [cacheStep, hs]
        rw [hstep]
        exact ⟨hnone, hsome⟩
      | true =>
        have h0 := hnone hs
        have hstep : cacheStep s (.acquire true) = ⟨some 1, s.outstanding + 1⟩ := by
          simp [cacheStep, hs]
        rw [hstep]
        refine ⟨by simp, fun j hj => ?_⟩
        have hj1 : (1 : ℤ) = j := by simpa using hj
        show j = ((s.outstanding + 1 : ℕ) : ℤ)
        omega
  | release =>
    have hout : 0 < s.outstanding := hleg rfl
    cases hs : s.entry with
    | some k =>
      have hk := hsome k hs
      have hstep : cacheStep s .release = ⟨some (k - 1), s.outstanding - 1⟩ := by
        simp [cacheStep, hs]
      rw [hstep]
      refine ⟨by simp, fun j hj => ?_⟩
      have hjk : k - 1 = j := by simpa using hj
      show j = ((s.outstanding - 1 : ℕ) : ℤ)
      omega
    | none =>
      have h0 := hnone hs
      omega
  | sweep elapsed =>
    by_cases hc : (elapsed && decide (s.entry = some 0)) = true
    · have hz : elapsed = true ∧ s.entry = some 0 := by simpa using hc
      have h0 : (0 : Int) = (s.outstanding : Int) := hsome 0 hz.2
      have hstep : cacheStep s (.sweep elapsed) = ⟨none, s.outstanding⟩ := by
        simp [cacheStep, hc]
      rw [hstep]
      refine ⟨fun _ => ?_, fun j hj => by simp at hj⟩
      show s.outstanding = 0
      omega
    · have hstep : cacheStep s (.sweep elapsed) = s := by
        simp [cacheStep, hc]
      rw [hstep]
      exact ⟨hnone, hsome⟩

theorem legalRun_inv (tr : List CacheEvent) :
    ∀ s, cacheInv s → legalFrom s tr = true → cacheInv (runCache s tr) := by
  induction tr with
  | nil => intro s h _; simpa [runCache] using h
  | cons e es ih =>
    intro s h hleg
    have hrun : runCache s (e :: es) = runCache (cacheStep s e) es := rfl
    rw [hrun]
    cases e with
    | acquire ok =>
      have hleg2 : (true && legalFrom (cacheStep s (.acquire ok)) es) = true := hleg
      rw [Bool.and_eq_true] at hleg2
      exact ih _ (cacheStep_inv s (.acquire ok) h (fun hcon => nomatch hcon)) hleg2.2
    | release =>
      have hleg2 : (decide (0 < s.outstanding) && legalFrom (cacheStep s .release) es) = true :=
        hleg
      rw [Bool.and_eq_true] at hleg2
      exact ih _ (cacheStep_inv s .release h (fun _ => by simpa using hleg2.1)) hleg2.2
    | sweep b =>
      have hleg2 : (true && legalFrom (cacheStep s (.sweep b)) es) = true := hleg
      rw [Bool.and_eq_true] at hleg2
      exact ih _ (cacheStep_inv s (.sweep b) h (fun hcon => nomatch hcon)) hleg2.2

/-- Claim C9: along every sequence of acquires, releases and sweeps in which
each decrementing release is backed by a prior successful acquire (release
invoked once per acquire), the cached entry's `pendingOps` never goes
negative. -/
theorem pendingOps_nonneg (tr : List CacheEvent)
    (h : legalFrom initCacheState tr = true) :
    ∀ k, (runCache initCacheState tr).entry = some k → 0 ≤ k := by
  intro k hk
  have hinv := legalRun_inv tr initCacheState
    ⟨fun _ => rfl, fun j hj => by simp [initCacheState] at hj⟩ h
  have := hinv.2 k hk
  omega

theorem pendingOps_nonneg_witness :
    legalFrom initCacheState [.acquire true, .sweep true] = true ∧ (0 : Int) ≤ 1 :=
  ⟨by decide, pendingOps_nonneg [.acquire true, .sweep true] (by decide) 1 (by decide)⟩

end Contentor
